import Mathlib

/-!
Shallow embedding of the Reverie backend core (maze.py, persona.py) and
verification of the frozen claims about it.

Conventions:
* Python `int` is modelled as `ℤ` (or `ℕ` where the source value is a count).
* Python `set` of event tuples is modelled as `Finset Event`.
* Python list indexing `xs[i]` (which wraps negative indices and raises
  `IndexError` out of range) is modelled by `pyIdx` returning `Option`.
* Fallible code returns `Except String _` (the string plays the role of the
  Python exception message).
-/

/-- An event tuple `(subject, predicate, object, description)` as stored in a
tile's `events` set (maze.py line 20: `Event = Tuple[str, object, object, object]`);
the three payload fields are `None`-able, modelled with `Option`. -/
structure Event where
  subject : String
  predicate : Option String
  object : Option String
  description : Option String
deriving DecidableEq, Repr

/-- One grid cell, mirroring the tile dict built in `Maze.__init__`
(maze.py lines 82-90). -/
structure Tile where
  world : String
  sector : String
  arena : String
  game_object : String
  spawning_location : String
  collision : Bool
  events : Finset Event
deriving DecidableEq

/-- The reverse address index `self.address_tiles : Dict[str, Set[TileCoord]]`,
a `defaultdict(set)`: total function with default `∅` (maze.py line 75). -/
def AddrIndex : Type := String → Finset (Int × Int)

/-- The `Maze` object state after construction (maze.py). -/
structure Maze where
  maze_width : Nat
  maze_height : Nat
  sq_tile_size : Int
  tiles : List (List Tile)
  address_tiles : AddrIndex

/-- Python list read `xs[i]`: a negative index is shifted by the length
(wrapping from the end); an index still out of range raises `IndexError`,
modelled as `none`. -/
def pyIdx {α : Type} (xs : List α) (i : Int) : Option α :=
  let j : Int := if i < 0 then i + xs.length else i
  if 0 ≤ j then xs.get? j.toNat else none

/-- Python in-place list update `xs[i] = f xs[i]`: same index resolution as
`pyIdx`; when the read would raise, the list is returned unchanged (in Python
the exception propagates before any mutation happens, so the state is likewise
unchanged there). -/
def pyModify {α : Type} (xs : List α) (i : Int) (f : α → α) : List α :=
  let j : Int := if i < 0 then i + xs.length else i
  if 0 ≤ j then
    match xs.get? j.toNat with
    | some a => xs.set j.toNat (f a)
    | none => xs
  else xs

/-- `Maze.access_tile` (maze.py lines 137-139): `self.tiles[y][x]` with raw
Python indexing: no bounds check of its own. -/
def Maze.access_tile (m : Maze) (tile : Int × Int) : Option Tile :=
  (pyIdx m.tiles tile.2).bind (fun row => pyIdx row tile.1)

/-- `Maze.turn_coordinate_to_tile` (maze.py lines 131-135):
`math.ceil(px / sq_tile_size)` per axis, i.e. exact ceiling of the rational
quotient. -/
def Maze.turn_coordinate_to_tile (m : Maze) (px : Int × Int) : Int × Int :=
  (⌈(px.1 : ℚ) / (m.sq_tile_size : ℚ)⌉, ⌈(px.2 : ℚ) / (m.sq_tile_size : ℚ)⌉)

/-- `Maze.get_tile_path` (maze.py lines 141-150).  The initial
`access_tile` may raise, hence the `Option` result. -/
def Maze.get_tile_path (m : Maze) (tile : Int × Int) (level : String) : Option String :=
  match m.access_tile tile with
  | none => none
  | some t =>
    if level = "world" then some t.world
    else if level = "sector" then some (t.world ++ ":" ++ t.sector)
    else if level = "arena" then some (t.world ++ ":" ++ t.sector ++ ":" ++ t.arena)
    else some (t.world ++ ":" ++ t.sector ++ ":" ++ t.arena ++ ":" ++ t.game_object)

/-- The integer interval `[lo, hi)` as a list, in increasing order: Python
`range(lo, hi)`. -/
def intRange (lo hi : Int) : List Int :=
  (List.range (hi - lo).toNat).map (fun (k : Nat) => lo + (k : Int))

/-- `Maze.get_nearby_tiles` (maze.py lines 152-159): the comprehension
`[(i, j) for i in range(x_min, x_max) for j in range(y_min, y_max)]`. -/
def Maze.get_nearby_tiles (m : Maze) (tile : Int × Int) (vision_r : Int) :
    List (Int × Int) :=
  let x_min := max 0 (tile.1 - vision_r)
  let x_max := min (m.maze_width : Int) (tile.1 + vision_r + 1)
  let y_min := max 0 (tile.2 - vision_r)
  let y_max := min (m.maze_height : Int) (tile.2 + vision_r + 1)
  (intRange x_min x_max).flatMap (fun i => (intRange y_min y_max).map (fun j => (i, j)))

/-- Apply `f` to the tile at `tile` (the Python code mutates the dict aliased
by `access_tile`; `events` is the only field these mutators touch). -/
def Maze.modifyTile (m : Maze) (tile : Int × Int) (f : Tile → Tile) : Maze :=
  { m with tiles := pyModify m.tiles tile.2 (fun row => pyModify row tile.1 f) }

/-- `Maze.add_event_from_tile` (maze.py lines 161-162): `set.add`. -/
def Maze.add_event_from_tile (m : Maze) (event : Event) (tile : Int × Int) : Maze :=
  m.modifyTile tile (fun t => { t with events := insert event t.events })

/-- `Maze.remove_event_from_tile` (maze.py lines 164-165): `set.discard`
(no-op when absent). -/
def Maze.remove_event_from_tile (m : Maze) (event : Event) (tile : Int × Int) : Maze :=
  m.modifyTile tile (fun t => { t with events := t.events.erase event })

/-- `Maze.turn_event_from_tile_idle` (maze.py lines 167-171). -/
def Maze.turn_event_from_tile_idle (m : Maze) (event : Event) (tile : Int × Int) : Maze :=
  m.modifyTile tile (fun t =>
    if event ∈ t.events then
      { t with events :=
          insert { subject := event.subject, predicate := none,
                   object := none, description := none } (t.events.erase event) }
    else t)

/-- `Maze.remove_subject_events_from_tile` (maze.py lines 173-178). -/
def Maze.remove_subject_events_from_tile (m : Maze) (subject : String) (tile : Int × Int) : Maze :=
  m.modifyTile tile (fun t =>
    { t with events := t.events.filter (fun ev => ¬ (ev.subject = subject)) })

/-!
## Construction (`Maze.__init__`, maze.py lines 24-126)

The file/JSON/CSV parsing in `__init__` (meta info, block mapping tables,
raw layer lists) is out of scope; its already-parsed result is captured in
`MazeConfig`.  The block mapping tables appear as their lookup behaviour
`dict.get(code, "")` — a total function from codes to names, unmapped codes
giving `""`.
-/

/-- The parsed world-configuration bundle consumed by `Maze.__init__`. -/
structure MazeConfig where
  maze_width : Nat
  maze_height : Nat
  sq_tile_size : Int
  world_block : String
  sector_blocks : String → String
  arena_blocks : String → String
  object_blocks : String → String
  spawn_blocks : String → String
  collision_raw : List String
  sector_raw : List String
  arena_raw : List String
  object_raw : List String
  spawn_raw : List String

/-- Python `xs[idx]` on a raw layer list inside `__init__`: raises
`IndexError` when `idx` is out of range (`idx` here is always `≥ 0`). -/
def layerCell (xs : List String) (idx : Nat) : Except String String :=
  match xs.get? idx with
  | some v => Except.ok v
  | none => Except.error "list index out of range"

/-- The tile dict built for cell `(x, y)` in `Maze.__init__`
(maze.py lines 80-100), including the initial idle game-object event. -/
def buildTile (cfg : MazeConfig) (x y : Nat) : Except String Tile := do
  let idx := y * cfg.maze_width + x
  let sector_c ← layerCell cfg.sector_raw idx
  let arena_c ← layerCell cfg.arena_raw idx
  let object_c ← layerCell cfg.object_raw idx
  let spawn_c ← layerCell cfg.spawn_raw idx
  let collision_c ← layerCell cfg.collision_raw idx
  let t : Tile :=
    { world := cfg.world_block
      sector := cfg.sector_blocks sector_c
      arena := cfg.arena_blocks arena_c
      game_object := cfg.object_blocks object_c
      spawning_location := cfg.spawn_blocks spawn_c
      collision := collision_c ≠ "0"
      events := ∅ }
  if t.game_object ≠ "" then
    let obj_path := t.world ++ ":" ++ t.sector ++ ":" ++ t.arena ++ ":" ++ t.game_object
    pure { t with events :=
      {⟨obj_path, none, none, none⟩} }
  else
    pure t

/-- `defaultdict(set)` insert: `d[key].add(coord)`. -/
def addrInsert (d : AddrIndex) (key : String) (coord : Int × Int) : AddrIndex :=
  fun k => if k = key then insert coord (d k) else d k

/-- `Maze._index_tile_addresses` (maze.py lines 111-126). -/
def indexTileAddresses (d : AddrIndex) (tile : Tile) (x y : Nat) : AddrIndex :=
  let d := if tile.sector ≠ "" then
      addrInsert d (tile.world ++ ":" ++ tile.sector) ((x : Int), (y : Int)) else d
  let d := if tile.arena ≠ "" then
      addrInsert d (tile.world ++ ":" ++ tile.sector ++ ":" ++ tile.arena)
        ((x : Int), (y : Int)) else d
  let d := if tile.game_object ≠ "" then
      addrInsert d (tile.world ++ ":" ++ tile.sector ++ ":" ++ tile.arena ++ ":" ++
        tile.game_object) ((x : Int), (y : Int)) else d
  let d := if tile.spawning_location ≠ "" then
      addrInsert d ("<spawn_loc>" ++ tile.spawning_location) ((x : Int), (y : Int)) else d
  d

/-- The empty reverse index (fresh `defaultdict(set)`). -/
def emptyAddrIndex : AddrIndex := fun _ => ∅

/-- The double loop of `Maze.__init__` (maze.py lines 77-106).  The Python
loop interleaves building each tile, indexing it, and appending it to its
row; since `buildTile` is pure and deterministic, the grid and the reverse
index are computed here in two passes over the same cells in the same order,
with identical results and the identical failure condition (a raw-layer
access out of range). -/
def buildMaze (cfg : MazeConfig) : Except String Maze := do
  let tiles ← (List.range cfg.maze_height).mapM (fun y =>
    (List.range cfg.maze_width).mapM (fun x => buildTile cfg x y))
  let addr ← (List.range cfg.maze_height).foldlM (fun d y =>
    (List.range cfg.maze_width).foldlM (fun d2 x => do
      let tile ← buildTile cfg x y
      pure (indexTileAddresses d2 tile x y)) d) emptyAddrIndex
  pure { maze_width := cfg.maze_width
         maze_height := cfg.maze_height
         sq_tile_size := cfg.sq_tile_size
         tiles := tiles
         address_tiles := addr }

/-!
## Agent orchestrator (`Persona`, persona.py)

`Persona.move` (persona.py lines 78-105) is the tick orchestrator.  The five
cognitive modules it calls (`perceive`, `retrieve`, `plan`, `reflect`,
`execute`) live outside this repository.
-/

/-- A Python `datetime.datetime` restricted to the fields that
`Persona.move` can observe (it only ever formats with `"%A %B %d"`, a pure
function of the calendar date; `hour` keeps distinct same-day instants
representable). -/
structure Datetime where
  year : Nat
  month : Nat
  day : Nat
  hour : Nat
deriving DecidableEq

/-- The calendar-validity range of the date fields we quantify over. -/
def Datetime.Valid (t : Datetime) : Prop :=
  1 ≤ t.month ∧ t.month ≤ 12 ∧ 1 ≤ t.day ∧ t.day ≤ 31

instance (t : Datetime) : Decidable t.Valid := by
  unfold Datetime.Valid; infer_instance

/-- English weekday names, indexed with Sunday at 0. -/
def weekdayNames : List String :=
  ["Sunday", "Monday", "Tuesday", "Wednesday", "Thursday", "Friday", "Saturday"]

/-- English month names, `monthNames.getD (m-1)` for month `m`. -/
def monthNames : List String :=
  ["January", "February", "March", "April", "May", "June", "July",
   "August", "September", "October", "November", "December"]

/-- Day of week of a proleptic-Gregorian date, 0 = Sunday (Sakamoto's
formula); agrees with Python's `datetime` calendar, which `%A` renders. -/
def dayOfWeek (y m d : Nat) : Nat :=
  let y' := if m < 3 then y - 1 else y
  let tbl := [0, 3, 2, 5, 0, 3, 5, 1, 4, 6, 2, 4]
  (y' + y' / 4 + y' / 400 + tbl.getD (m - 1) 0 + d - y' / 100) % 7

/-- `%A`: full weekday name. -/
def fmtWeekday (t : Datetime) : String :=
  weekdayNames.getD (dayOfWeek t.year t.month t.day) ""

/-- `%B`: full month name. -/
def fmtMonth (t : Datetime) : String :=
  monthNames.getD (t.month - 1) ""

/-- `%d`: zero-padded day of month. -/
def fmtDay2 (t : Datetime) : String :=
  if t.day < 10 then "0" ++ toString t.day else toString t.day

/-- `t.strftime("%A %B %d")` as used on persona.py lines 92-94.  Note the
format contains no year component. -/
def strftimeAMBd (t : Datetime) : String :=
  fmtWeekday t ++ " " ++ fmtMonth t ++ " " ++ fmtDay2 t

/-- The three values the local `new_day` variable can take in
`Persona.move`: `False`, `"First day"`, `"New day"` (persona.py lines
89-95); named after the spec's day-flag vocabulary. -/
inductive DayFlag where
  | noSignal : DayFlag
  | firstDay : DayFlag
  | newDay : DayFlag
deriving DecidableEq

/-- The day-flag computation of `Persona.move` (persona.py lines 89-95):
`not self.scratch.curr_time` is `True` exactly when no time was stored
(`None`), and the day comparison is string equality of the two
`strftime("%A %B %d")` renderings. -/
def dayFlag (prev : Option Datetime) (curr : Datetime) : DayFlag :=
  match prev with
  | none => DayFlag.firstDay
  | some p => if strftimeAMBd p ≠ strftimeAMBd curr then DayFlag.newDay
              else DayFlag.noSignal

/-- The slice of the `Scratch` short-term store that `Persona.move` itself
reads and writes (`curr_tile`, `curr_time`); all other scratch fields are
opaque to the orchestrator. -/
structure Scratch where
  curr_tile : Option (Int × Int)
  curr_time : Option Datetime
deriving DecidableEq

/-- The cognitive steps of the tick pipeline, for recording which
collaborator calls a tick actually performed, in order. -/
inductive Step where
  | perceive : Step
  | retrieve : Step
  | plan : Step
  | reflect : Step
  | execute : Step
deriving DecidableEq

/-- The canonical full pipeline order of persona.py lines 99-105. -/
def pipelineOrder : List Step :=
  [Step.perceive, Step.retrieve, Step.plan, Step.reflect, Step.execute]

/-- Modelled from the spec: the external cognitive modules
(`persona.cognitive_modules.*` — not part of this repository's sources).
Per spec §4.2/§6/§7 each is a single blocking call that either returns its
result or fails with a `CollaboratorFailure` (modelled by `Except Err`);
`reflect` returns nothing and acts only on associative memory, which the
orchestrator does not inspect. -/
structure Collab (Mz Ps Perceived Retrieved PlanT Action Err : Type) where
  perceiveF : Mz → Except Err Perceived
  retrieveF : Perceived → Except Err Retrieved
  planF : Mz → Ps → DayFlag → Retrieved → Except Err PlanT
  reflectF : Except Err Unit
  executeF : Mz → Ps → PlanT → Except Err Action

/-- `Persona.move` (persona.py lines 78-105): updates `scratch.curr_tile`,
computes the day flag from the previously stored time, updates
`scratch.curr_time`, then runs perceive → retrieve → plan → reflect →
execute, each step's exception propagating immediately.  Returns the final
scratch state, the list of collaborator calls performed (in order), and the
executor's action or the propagated failure. -/
def Persona.move {Mz Ps Perceived Retrieved PlanT Action Err : Type}
    (c : Collab Mz Ps Perceived Retrieved PlanT Action Err)
    (s : Scratch) (maze : Mz) (personas : Ps)
    (curr_tile : Int × Int) (curr_time : Datetime) :
    Scratch × List Step × Except Err Action :=
  let s1 : Scratch := { s with curr_tile := some curr_tile }
  let new_day := dayFlag s1.curr_time curr_time
  let s2 : Scratch := { s1 with curr_time := some curr_time }
  match c.perceiveF maze with
  | Except.error e => (s2, [Step.perceive], Except.error e)
  | Except.ok perceived =>
    match c.retrieveF perceived with
    | Except.error e => (s2, [Step.perceive, Step.retrieve], Except.error e)
    | Except.ok retrieved =>
      match c.planF maze personas new_day retrieved with
      | Except.error e =>
        (s2, [Step.perceive, Step.retrieve, Step.plan], Except.error e)
      | Except.ok plan_result =>
        match c.reflectF with
        | Except.error e =>
          (s2, [Step.perceive, Step.retrieve, Step.plan, Step.reflect],
            Except.error e)
        | Except.ok _ =>
          match c.executeF maze personas plan_result with
          | Except.error e => (s2, pipelineOrder, Except.error e)
          | Except.ok action => (s2, pipelineOrder, Except.ok action)

/-!
## Theorems

Helper lemmas first, then one theorem per claim (with witnesses and
counterexamples where required).
-/

/-- In every branch of `Persona.move` — success or collaborator failure —
the returned scratch state is the input state with `curr_tile` and
`curr_time` overwritten by the tick's arguments. -/
theorem move_scratch_eq {Mz Ps Pv Rt Pl Ac Er : Type}
    (c : Collab Mz Ps Pv Rt Pl Ac Er) (s : Scratch) (mz : Mz) (ps : Ps)
    (tile : Int × Int) (time : Datetime) :
    (Persona.move c s mz ps tile time).1 =
      { s with curr_tile := some tile, curr_time := some time } := by
  cases hp : c.perceiveF mz with
  | error e => simp [Persona.move, hp]
  | ok pv =>
    cases hr : c.retrieveF pv with
    | error e => simp [Persona.move, hp, hr]
    | ok rt =>
      cases hl : c.planF mz ps (dayFlag s.curr_time time) rt with
      | error e => simp [Persona.move, hp, hr, hl]
      | ok pl =>
        cases hf : c.reflectF with
        | error e => simp [Persona.move, hp, hr, hl, hf]
        | ok u =>
          cases he : c.executeF mz ps pl with
          | error e => simp [Persona.move, hp, hr, hl, hf, he]
          | ok a => simp [Persona.move, hp, hr, hl, hf, he]

/-- C1: the cognitive steps of a tick run in the fixed order
perceive → retrieve → plan → reflect → execute (the recorded call trace is
always a prefix of that order); a `CollaboratorFailure` in any step ends the
trace at that step, skips every later step and propagates out as the tick's
result; `reflect` runs unconditionally whenever `plan` returns, before
`execute`; in particular a failure inside `plan` means neither `reflect`
nor `execute` runs. -/
theorem C1_tick_pipeline_order {Mz Ps Pv Rt Pl Ac Er : Type}
    (c : Collab Mz Ps Pv Rt Pl Ac Er) (s : Scratch) (mz : Mz) (ps : Ps)
    (tile : Int × Int) (time : Datetime)
    (s' : Scratch) (tr : List Step) (res : Except Er Ac)
    (h : Persona.move c s mz ps tile time = (s', tr, res)) :
    (∃ n, n ≤ 5 ∧ tr = pipelineOrder.take n) ∧
    (∀ e, c.perceiveF mz = Except.error e →
      tr = pipelineOrder.take 1 ∧ res = Except.error e) ∧
    (∀ pv e, c.perceiveF mz = Except.ok pv → c.retrieveF pv = Except.error e →
      tr = pipelineOrder.take 2 ∧ res = Except.error e) ∧
    (∀ pv rt e, c.perceiveF mz = Except.ok pv → c.retrieveF pv = Except.ok rt →
      c.planF mz ps (dayFlag s.curr_time time) rt = Except.error e →
      tr = pipelineOrder.take 3 ∧ Step.reflect ∉ tr ∧ Step.execute ∉ tr ∧
        res = Except.error e) ∧
    (∀ pv rt pl, c.perceiveF mz = Except.ok pv → c.retrieveF pv = Except.ok rt →
      c.planF mz ps (dayFlag s.curr_time time) rt = Except.ok pl →
      Step.reflect ∈ tr ∧ tr.take 4 = pipelineOrder.take 4) ∧
    (∀ pv rt pl e, c.perceiveF mz = Except.ok pv → c.retrieveF pv = Except.ok rt →
      c.planF mz ps (dayFlag s.curr_time time) rt = Except.ok pl →
      c.reflectF = Except.error e →
      tr = pipelineOrder.take 4 ∧ res = Except.error e) ∧
    (∀ pv rt pl e, c.perceiveF mz = Except.ok pv → c.retrieveF pv = Except.ok rt →
      c.planF mz ps (dayFlag s.curr_time time) rt = Except.ok pl →
      c.reflectF = Except.ok () → c.executeF mz ps pl = Except.error e →
      tr = pipelineOrder ∧ res = Except.error e) ∧
    (∀ a, res = Except.ok a → tr = pipelineOrder) := by
  cases hp : c.perceiveF mz with
  | error e0 =>
    simp only [Persona.move, hp, Prod.mk.injEq] at h
    obtain ⟨-, rfl, rfl⟩ := h
    exact ⟨⟨1, by omega, rfl⟩, by intros; simp_all [pipelineOrder], by intros; simp_all [pipelineOrder],
      by intros; simp_all [pipelineOrder], by intros; simp_all [pipelineOrder], by intros; simp_all [pipelineOrder],
      by intros; simp_all [pipelineOrder], by intros; simp_all [pipelineOrder]⟩
  | ok pv0 =>
    cases hr : c.retrieveF pv0 with
    | error e0 =>
      simp only [Persona.move, hp, hr, Prod.mk.injEq] at h
      obtain ⟨-, rfl, rfl⟩ := h
      exact ⟨⟨2, by omega, rfl⟩, by intros; simp_all [pipelineOrder], by intros; simp_all [pipelineOrder],
        by intros; simp_all [pipelineOrder], by intros; simp_all [pipelineOrder], by intros; simp_all [pipelineOrder],
        by intros; simp_all [pipelineOrder], by intros; simp_all [pipelineOrder]⟩
    | ok rt0 =>
      cases hl : c.planF mz ps (dayFlag s.curr_time time) rt0 with
      | error e0 =>
        simp only [Persona.move, hp, hr, hl, Prod.mk.injEq] at h
        obtain ⟨-, rfl, rfl⟩ := h
        exact ⟨⟨3, by omega, rfl⟩, by intros; simp_all [pipelineOrder], by intros; simp_all [pipelineOrder],
          by intros; simp_all [pipelineOrder], by intros; simp_all [pipelineOrder], by intros; simp_all [pipelineOrder],
          by intros; simp_all [pipelineOrder], by intros; simp_all [pipelineOrder]⟩
      | ok pl0 =>
        cases hf : c.reflectF with
        | error e0 =>
          simp only [Persona.move, hp, hr, hl, hf, Prod.mk.injEq] at h
          obtain ⟨-, rfl, rfl⟩ := h
          exact ⟨⟨4, by omega, rfl⟩, by intros; simp_all [pipelineOrder], by intros; simp_all [pipelineOrder],
            by intros; simp_all [pipelineOrder], by intros; simp_all [pipelineOrder], by intros; simp_all [pipelineOrder],
            by intros; simp_all [pipelineOrder], by intros; simp_all [pipelineOrder]⟩
        | ok u0 =>
          cases he : c.executeF mz ps pl0 with
          | error e0 =>
            simp only [Persona.move, hp, hr, hl, hf, he, Prod.mk.injEq] at h
            obtain ⟨-, rfl, rfl⟩ := h
            exact ⟨⟨5, by omega, rfl⟩, by intros; simp_all [pipelineOrder], by intros; simp_all [pipelineOrder],
              by intros; simp_all [pipelineOrder], by intros; simp_all [pipelineOrder],
              by intros; simp_all [pipelineOrder], by intros; simp_all [pipelineOrder],
              by intros; simp_all [pipelineOrder]⟩
          | ok a0 =>
            simp only [Persona.move, hp, hr, hl, hf, he, Prod.mk.injEq] at h
            obtain ⟨-, rfl, rfl⟩ := h
            exact ⟨⟨5, by omega, rfl⟩, by intros; simp_all [pipelineOrder], by intros; simp_all [pipelineOrder],
              by intros; simp_all [pipelineOrder], by intros; simp_all [pipelineOrder],
              by intros; simp_all [pipelineOrder], by intros; simp_all [pipelineOrder],
              by intros; simp_all [pipelineOrder]⟩

/-- A concrete collaborator set whose plan step fails, for exercising the
failure path of the pipeline theorems on concrete inputs. -/
def planFailingCollab : Collab Unit Unit Unit Unit Unit Unit String :=
  { perceiveF := fun _ => Except.ok ()
    retrieveF := fun _ => Except.ok ()
    planF := fun _ _ _ _ => Except.error "plan failure"
    reflectF := Except.ok ()
    executeF := fun _ _ _ => Except.ok () }

/-- Witness for C1: with a concrete collaborator set whose plan step fails,
the tick performs exactly perceive, retrieve, plan; reflect and execute are
skipped and the plan failure is the tick's result. -/
theorem C1_tick_pipeline_order_witness :
    (Persona.move planFailingCollab ⟨none, none⟩ () () (0, 0) ⟨2023, 3, 1, 0⟩).2.1
        = [Step.perceive, Step.retrieve, Step.plan] ∧
    Step.reflect ∉
      (Persona.move planFailingCollab ⟨none, none⟩ () () (0, 0) ⟨2023, 3, 1, 0⟩).2.1 ∧
    Step.execute ∉
      (Persona.move planFailingCollab ⟨none, none⟩ () () (0, 0) ⟨2023, 3, 1, 0⟩).2.1 ∧
    (Persona.move planFailingCollab ⟨none, none⟩ () () (0, 0) ⟨2023, 3, 1, 0⟩).2.2
        = Except.error "plan failure" := by
  have h := C1_tick_pipeline_order planFailingCollab ⟨none, none⟩ () () (0, 0)
    ⟨2023, 3, 1, 0⟩
    (Persona.move planFailingCollab ⟨none, none⟩ () () (0, 0) ⟨2023, 3, 1, 0⟩).1
    (Persona.move planFailingCollab ⟨none, none⟩ () () (0, 0) ⟨2023, 3, 1, 0⟩).2.1
    (Persona.move planFailingCollab ⟨none, none⟩ () () (0, 0) ⟨2023, 3, 1, 0⟩).2.2
    rfl
  obtain ⟨-, -, -, hplan, -⟩ := h
  have h3 := hplan () () "plan failure" rfl rfl rfl
  exact ⟨h3.1, h3.2.1, h3.2.2.1, h3.2.2.2⟩

/-- C9: when any cognitive step of a tick fails, the failure leaves the
working state's `curr_tile` equal to the tick's `position` argument and
`curr_time` equal to the tick's `time` argument — the writes of steps 1-3
are not rolled back. -/
theorem C9_no_rollback_on_failure {Mz Ps Pv Rt Pl Ac Er : Type}
    (c : Collab Mz Ps Pv Rt Pl Ac Er) (s : Scratch) (mz : Mz) (ps : Ps)
    (tile : Int × Int) (time : Datetime) (e : Er)
    (hfail : (Persona.move c s mz ps tile time).2.2 = Except.error e) :
    (Persona.move c s mz ps tile time).1.curr_tile = some tile ∧
    (Persona.move c s mz ps tile time).1.curr_time = some time := by
  rw [move_scratch_eq]
  exact ⟨rfl, rfl⟩

/-- Witness for C9: the concrete failing tick of `planFailingCollab` leaves
the tick's position and time in the scratch state. -/
theorem C9_no_rollback_on_failure_witness :
    (Persona.move planFailingCollab ⟨none, none⟩ () () (3, 4) ⟨2023, 3, 1, 0⟩).1.curr_tile
        = some (3, 4) ∧
    (Persona.move planFailingCollab ⟨none, none⟩ () () (3, 4) ⟨2023, 3, 1, 0⟩).1.curr_time
        = some ⟨2023, 3, 1, 0⟩ :=
  C9_no_rollback_on_failure planFailingCollab ⟨none, none⟩ () () (3, 4)
    ⟨2023, 3, 1, 0⟩ "plan failure" rfl

/-- Well-formedness of a maze's tile grid: the row count matches
`maze_height` and every row has `maze_width` cells (true of every maze the
constructor produces). -/
def Maze.WF (m : Maze) : Prop :=
  m.tiles.length = m.maze_height ∧ ∀ row ∈ m.tiles, row.length = m.maze_width

instance (m : Maze) : Decidable m.WF := by
  unfold Maze.WF; infer_instance

/-- A non-negative index is not shifted by Python index resolution. -/
theorem pyIdx_of_nonneg {α : Type} (xs : List α) (i : Int) (h : 0 ≤ i) :
    pyIdx xs i = xs.get? i.toNat := by
  unfold pyIdx
  simp [not_lt.mpr h, h]

/-- Python indexing succeeds on a list index inside `[0, length)`. -/
theorem pyIdx_inbounds {α : Type} (xs : List α) (i : Int)
    (h0 : 0 ≤ i) (h1 : i < xs.length) :
    ∃ a, pyIdx xs i = some a ∧ xs.get? i.toNat = some a := by
  rw [pyIdx_of_nonneg xs i h0]
  have hlt : i.toNat < xs.length := by omega
  exact ⟨xs.get ⟨i.toNat, hlt⟩, List.get?_eq_get hlt, List.get?_eq_get hlt⟩

/-- On a well-formed maze, `access_tile` succeeds at every in-bounds
coordinate. -/
theorem access_tile_inbounds (m : Maze) (hwf : m.WF) (x y : Int)
    (hx0 : 0 ≤ x) (hx : x < (m.maze_width : Int))
    (hy0 : 0 ≤ y) (hy : y < (m.maze_height : Int)) :
    ∃ t, m.access_tile (x, y) = some t := by
  obtain ⟨hlen, hrows⟩ := hwf
  obtain ⟨row, hrow, -⟩ := pyIdx_inbounds m.tiles y hy0 (by rw [hlen]; exact_mod_cast hy)
  have hmem : row ∈ m.tiles := by
    rw [pyIdx_of_nonneg m.tiles y hy0] at hrow
    exact List.get?_mem hrow
  obtain ⟨t, ht, -⟩ := pyIdx_inbounds row x hx0 (by rw [hrows row hmem]; exact_mod_cast hx)
  refine ⟨t, ?_⟩
  unfold Maze.access_tile
  rw [pyIdx_of_nonneg m.tiles y hy0] at hrow ⊢
  rw [hrow]
  simpa using ht

/-- C10: on a well-formed maze, `get_tile_path` called with any level other
than `"world"`, `"sector"` or `"arena"` — not only `"game_object"` — falls
through to the final return and yields the full four-segment
`world:sector:arena:game_object` address of the tile. -/
theorem C10_unrecognized_level_full_path (m : Maze) (x y : Int) (level : String)
    (hwf : m.WF) (hx0 : 0 ≤ x) (hx : x < (m.maze_width : Int))
    (hy0 : 0 ≤ y) (hy : y < (m.maze_height : Int))
    (hw : level ≠ "world") (hs : level ≠ "sector") (ha : level ≠ "arena") :
    ∃ t, m.access_tile (x, y) = some t ∧
      m.get_tile_path (x, y) level =
        some (t.world ++ ":" ++ t.sector ++ ":" ++ t.arena ++ ":" ++ t.game_object) := by
  obtain ⟨t, ht⟩ := access_tile_inbounds m hwf x y hx0 hx hy0 hy
  refine ⟨t, ht, ?_⟩
  unfold Maze.get_tile_path
  rw [ht]
  simp [hw, hs, ha]

/-- A simple one-tile maze used as concrete input by several witnesses. -/
def tinyTile : Tile :=
  { world := "Town", sector := "park", arena := "bench",
    game_object := "chessboard", spawning_location := "",
    collision := false, events := ∅ }

/-- A 1×1 well-formed maze around `tinyTile`. -/
def tinyMaze : Maze :=
  { maze_width := 1, maze_height := 1, sq_tile_size := 32,
    tiles := [[tinyTile]], address_tiles := emptyAddrIndex }

/-- Witness for C10: an arbitrary unrecognized level string (`"xyzzy"`)
yields the full four-segment address on a concrete maze. -/
theorem C10_unrecognized_level_full_path_witness :
    ∃ t, tinyMaze.access_tile (0, 0) = some t ∧
      tinyMaze.get_tile_path (0, 0) "xyzzy" =
        some (t.world ++ ":" ++ t.sector ++ ":" ++ t.arena ++ ":" ++ t.game_object) :=
  C10_unrecognized_level_full_path tinyMaze 0 0 "xyzzy" (by decide) (by decide)
    (by decide) (by decide) (by decide) (by decide) (by decide) (by decide)

/-- C5: `turn_coordinate_to_tile` is ceiling division by the tile pixel
size, independently per axis: the result is `(⌈px/s⌉, ⌈py/s⌉)`; per axis the
output is `k` exactly on the pixel interval `((k-1)·s, k·s]`, so the
boundary pixel `k·s` maps to tile `k` (the tile "above") and not to tile
`k+1` whose pixels start just past it; and the mapping is non-decreasing in
each axis. -/
theorem C5_coordinate_to_tile_ceiling (m : Maze) (hs : 0 < m.sq_tile_size) :
    (∀ px py : Int, m.turn_coordinate_to_tile (px, py) =
      (⌈(px : ℚ) / (m.sq_tile_size : ℚ)⌉, ⌈(py : ℚ) / (m.sq_tile_size : ℚ)⌉)) ∧
    (∀ p k : Int, (m.turn_coordinate_to_tile (p, p)).1 = k ↔
      (k - 1) * m.sq_tile_size < p ∧ p ≤ k * m.sq_tile_size) ∧
    (∀ k : Int, (m.turn_coordinate_to_tile (k * m.sq_tile_size, 0)).1 = k) ∧
    (∀ px px' py py' : Int, px ≤ px' → py ≤ py' →
      (m.turn_coordinate_to_tile (px, py)).1 ≤ (m.turn_coordinate_to_tile (px', py')).1 ∧
      (m.turn_coordinate_to_tile (px, py)).2 ≤ (m.turn_coordinate_to_tile (px', py')).2) := by
  have hs' : (0 : ℚ) < (m.sq_tile_size : ℚ) := by exact_mod_cast hs
  have hchar : ∀ p k : Int, (m.turn_coordinate_to_tile (p, p)).1 = k ↔
      (k - 1) * m.sq_tile_size < p ∧ p ≤ k * m.sq_tile_size := by
    intro p k
    show ⌈(p : ℚ) / (m.sq_tile_size : ℚ)⌉ = k ↔ _
    rw [Int.ceil_eq_iff, lt_div_iff hs', div_le_iff hs']
    constructor
    · rintro ⟨h1, h2⟩
      constructor
      · by_contra hcon
        push_neg at hcon
        have hq : (p : ℚ) ≤ (((k - 1) * m.sq_tile_size : Int) : ℚ) := by
          exact_mod_cast hcon
        push_cast at hq
        linarith
      · exact_mod_cast h2
    · rintro ⟨h1, h2⟩
      constructor
      · push_cast
        have h1' : ((k - 1) * m.sq_tile_size : ℚ) < (p : ℚ) := by exact_mod_cast h1
        push_cast at h1'
        linarith
      · exact_mod_cast h2
  refine ⟨fun px py => rfl, hchar, ?_, ?_⟩
  · intro k
    show ⌈((k * m.sq_tile_size : Int) : ℚ) / (m.sq_tile_size : ℚ)⌉ = k
    push_cast
    rw [mul_div_cancel_right₀ _ (ne_of_gt hs')]
    exact Int.ceil_intCast k
  · intro px px' py py' h1 h2
    constructor
    · exact Int.ceil_le_ceil ((div_le_div_right hs').mpr (by exact_mod_cast h1))
    · exact Int.ceil_le_ceil ((div_le_div_right hs').mpr (by exact_mod_cast h2))

/-- Witness for C5: on a concrete maze with tile size 32, the boundary
pixel `2·32` maps to tile 2, and pixel 33 maps at least as high as
pixel 20 does. -/
theorem C5_coordinate_to_tile_ceiling_witness :
    (tinyMaze.turn_coordinate_to_tile (2 * tinyMaze.sq_tile_size, 0)).1 = 2 ∧
    (tinyMaze.turn_coordinate_to_tile (20, 20)).1 ≤
      (tinyMaze.turn_coordinate_to_tile (33, 33)).1 := by
  have h := C5_coordinate_to_tile_ceiling tinyMaze (by decide)
  exact ⟨h.2.2.1 2, (h.2.2.2 20 33 20 33 (by decide) (by decide)).1⟩

/-- Membership in an integer range list. -/
theorem mem_intRange {lo hi i : Int} : i ∈ intRange lo hi ↔ lo ≤ i ∧ i < hi := by
  unfold intRange
  simp only [List.mem_map, List.mem_range]
  constructor
  · rintro ⟨k, hk, rfl⟩
    omega
  · intro h
    exact ⟨(i - lo).toNat, by omega, by omega⟩

/-- Length of an integer range list. -/
theorem length_intRange (lo hi : Int) : (intRange lo hi).length = (hi - lo).toNat := by
  unfold intRange
  rw [List.length_map, List.length_range]

/-- An integer range list has no duplicates. -/
theorem nodup_intRange (lo hi : Int) : (intRange lo hi).Nodup := by
  unfold intRange
  exact (List.nodup_range _).map (fun a b hab => by omega)

/-- Length of the rectangle comprehension. -/
theorem length_flatMap_pairs (l1 l2 : List Int) :
    (l1.flatMap (fun i => l2.map (fun j => (i, j)))).length =
      l1.length * l2.length := by
  induction l1 with
  | nil => simp
  | cons a t ih => simp [ih]; ring

/-- The rectangle comprehension over duplicate-free ranges has no
duplicates. -/
theorem nodup_flatMap_pairs (l1 l2 : List Int) (h1 : l1.Nodup) (h2 : l2.Nodup) :
    (l1.flatMap (fun i => l2.map (fun j => (i, j)))).Nodup := by
  induction l1 with
  | nil => simp
  | cons a t ih =>
    obtain ⟨ha, ht⟩ := List.nodup_cons.mp h1
    simp only [List.flatMap_cons]
    refine List.Nodup.append ?_ (ih ht) ?_
    · exact h2.map (fun u v huv => by simpa using congrArg Prod.snd huv)
    · intro p hp hq
      obtain ⟨j, hj, rfl⟩ := List.mem_map.mp hp
      obtain ⟨i, hi, hmem⟩ := List.mem_flatMap.mp hq
      obtain ⟨j2, hj2, heq⟩ := List.mem_map.mp hmem
      injection heq with hia hj2j
      subst hia
      exact ha hi

/-- C6: for an in-bounds center and radius `r ≥ 0`, `get_nearby_tiles`
returns exactly the tiles of the square `[x-r, x+r] × [y-r, y+r]`
intersected with the grid bounds (no wrapping), without duplicates; the
center is always among them; the count is at most `(2r+1)²`, with equality
whenever the square is not clipped by a grid boundary. -/
theorem C6_nearby_tiles (m : Maze) (x y r : Int)
    (hx0 : 0 ≤ x) (hx : x < (m.maze_width : Int))
    (hy0 : 0 ≤ y) (hy : y < (m.maze_height : Int)) (hr : 0 ≤ r) :
    (∀ i j : Int, (i, j) ∈ m.get_nearby_tiles (x, y) r ↔
      ((x - r ≤ i ∧ i ≤ x + r ∧ 0 ≤ i ∧ i < (m.maze_width : Int)) ∧
       (y - r ≤ j ∧ j ≤ y + r ∧ 0 ≤ j ∧ j < (m.maze_height : Int)))) ∧
    (x, y) ∈ m.get_nearby_tiles (x, y) r ∧
    (m.get_nearby_tiles (x, y) r).Nodup ∧
    ((m.get_nearby_tiles (x, y) r).length : Int) ≤ (2 * r + 1) ^ 2 ∧
    (0 ≤ x - r → x + r + 1 ≤ (m.maze_width : Int) →
     0 ≤ y - r → y + r + 1 ≤ (m.maze_height : Int) →
     ((m.get_nearby_tiles (x, y) r).length : Int) = (2 * r + 1) ^ 2) := by
  have hmem : ∀ i j : Int, (i, j) ∈ m.get_nearby_tiles (x, y) r ↔
      ((x - r ≤ i ∧ i ≤ x + r ∧ 0 ≤ i ∧ i < (m.maze_width : Int)) ∧
       (y - r ≤ j ∧ j ≤ y + r ∧ 0 ≤ j ∧ j < (m.maze_height : Int))) := by
    intro i j
    unfold Maze.get_nearby_tiles
    simp only [List.mem_flatMap, List.mem_map, mem_intRange]
    constructor
    · rintro ⟨i', hi', j', hj', heq⟩
      injection heq with e1 e2
      subst e1; subst e2
      omega
    · intro h
      exact ⟨i, by omega, j, by omega, rfl⟩
  have hlen : (m.get_nearby_tiles (x, y) r).length =
      (min (m.maze_width : Int) (x + r + 1) - max 0 (x - r)).toNat *
      (min (m.maze_height : Int) (y + r + 1) - max 0 (y - r)).toNat := by
    unfold Maze.get_nearby_tiles
    rw [length_flatMap_pairs, length_intRange, length_intRange]
  refine ⟨hmem, (hmem x y).mpr (by omega), ?_, ?_, ?_⟩
  · exact nodup_flatMap_pairs _ _ (nodup_intRange _ _) (nodup_intRange _ _)
  · calc ((m.get_nearby_tiles (x, y) r).length : Int)
        = ((min (m.maze_width : Int) (x + r + 1) - max 0 (x - r)).toNat : Int) *
          ((min (m.maze_height : Int) (y + r + 1) - max 0 (y - r)).toNat : Int) := by
          rw [hlen]; push_cast; ring
      _ ≤ (2 * r + 1) * (2 * r + 1) :=
          mul_le_mul (by omega) (by omega) (by omega) (by omega)
      _ = (2 * r + 1) ^ 2 := by ring
  · intro hcx0 hcx1 hcy0 hcy1
    calc ((m.get_nearby_tiles (x, y) r).length : Int)
        = ((min (m.maze_width : Int) (x + r + 1) - max 0 (x - r)).toNat : Int) *
          ((min (m.maze_height : Int) (y + r + 1) - max 0 (y - r)).toNat : Int) := by
          rw [hlen]; push_cast; ring
      _ = (2 * r + 1) * (2 * r + 1) := by
          have e1 : ((min (m.maze_width : Int) (x + r + 1) - max 0 (x - r)).toNat : Int)
              = 2 * r + 1 := by omega
          have e2 : ((min (m.maze_height : Int) (y + r + 1) - max 0 (y - r)).toNat : Int)
              = 2 * r + 1 := by omega
          rw [e1, e2]
      _ = (2 * r + 1) ^ 2 := by ring

/-- Witness for C6: on the concrete 1×1 maze with center `(0,0)` and radius
1, the square is clipped to the single in-bounds tile: the center is in the
result and the count respects the `(2r+1)²` bound. -/
theorem C6_nearby_tiles_witness :
    (0, 0) ∈ tinyMaze.get_nearby_tiles (0, 0) 1 ∧
    ((tinyMaze.get_nearby_tiles (0, 0) 1).length : Int) ≤ (2 * 1 + 1) ^ 2 := by
  have h := C6_nearby_tiles tinyMaze 0 0 1 (by decide) (by decide) (by decide)
    (by decide) (by decide)
  exact ⟨h.2.1, h.2.2.2.1⟩

/-- Reading back through Python index resolution after an in-place update at
the same index sees the updated element (the update preserves the list's
length, so the resolution is unchanged). -/
theorem pyIdx_pyModify_self {α : Type} (xs : List α) (i : Int) (f : α → α) :
    pyIdx (pyModify xs i f) i = (pyIdx xs i).map f := by
  by_cases h0 : 0 ≤ (if i < 0 then i + (xs.length : Int) else i)
  · cases hg : xs.get? (if i < 0 then i + (xs.length : Int) else i).toNat with
    | none =>
      have hmod : pyModify xs i f = xs := by
        simp only [pyModify]
        rw [if_pos h0, hg]
      rw [hmod]
      simp only [pyIdx]
      rw [if_pos h0, hg]
      rfl
    | some a =>
      obtain ⟨hlt, -⟩ := List.get?_eq_some.mp hg
      have hmod : pyModify xs i f =
          xs.set (if i < 0 then i + (xs.length : Int) else i).toNat (f a) := by
        simp only [pyModify]
        rw [if_pos h0, hg]
      rw [hmod]
      simp only [pyIdx, List.length_set]
      rw [if_pos h0, List.get?_set_eq_of_lt _ hlt, hg, if_pos h0]
      rfl
  · have hmod : pyModify xs i f = xs := by
      simp only [pyModify]
      rw [if_neg h0]
    rw [hmod]
    simp only [pyIdx]
    rw [if_neg h0]
    rfl

/-- Accessing the tile that `modifyTile` just updated sees the update. -/
theorem access_modifyTile_self (m : Maze) (t : Int × Int) (f : Tile → Tile) :
    (m.modifyTile t f).access_tile t = (m.access_tile t).map f := by
  show (pyIdx (pyModify m.tiles t.2 (fun row => pyModify row t.1 f)) t.2).bind
      (fun row => pyIdx row t.1)
    = ((pyIdx m.tiles t.2).bind (fun row => pyIdx row t.1)).map f
  rw [pyIdx_pyModify_self]
  cases pyIdx m.tiles t.2 with
  | none => rfl
  | some row =>
    show pyIdx (pyModify row t.1 f) t.1 = (pyIdx row t.1).map f
    exact pyIdx_pyModify_self row t.1 f

/-- C2 (amended): at any coordinate where tile access succeeds,
`add_event_from_tile` followed by `remove_event_from_tile` of the same event
restores the tile exactly — provided the event was not already present
before the add.  (When it was already present, the pair strictly removes
it; see the counterexample.) -/
theorem C2_add_remove_restores (m : Maze) (e : Event) (t : Int × Int) (tl : Tile)
    (hacc : m.access_tile t = some tl) (hnot : e ∉ tl.events) :
    ((m.add_event_from_tile e t).remove_event_from_tile e t).access_tile t = some tl := by
  unfold Maze.add_event_from_tile Maze.remove_event_from_tile
  rw [access_modifyTile_self, access_modifyTile_self, hacc]
  show some (⟨tl.world, tl.sector, tl.arena, tl.game_object, tl.spawning_location,
    tl.collision, (insert e tl.events).erase e⟩ : Tile) = some tl
  rw [Finset.erase_insert hnot]

/-- A single-tile maze whose tile already carries the chessboard idle
event, exhibiting the non-involutive add/remove pair. -/
def preloadedMaze : Maze :=
  { maze_width := 1, maze_height := 1, sq_tile_size := 32,
    tiles := [[{ tinyTile with events :=
      {⟨"Town:park:bench:chessboard", none, none, none⟩} }]],
    address_tiles := emptyAddrIndex }

/-- Counterexample to C2 as stated: when the tile's event set already
contains the event, `add_event_from_tile` (a no-op) followed by
`remove_event_from_tile` (which discards) does NOT restore the pre-add
event set — the event is gone. -/
theorem C2_add_remove_counterexample :
    ((((preloadedMaze.add_event_from_tile
          ⟨"Town:park:bench:chessboard", none, none, none⟩ (0, 0)).remove_event_from_tile
          ⟨"Town:park:bench:chessboard", none, none, none⟩ (0, 0)).access_tile
          (0, 0)).map Tile.events)
      ≠ ((preloadedMaze.access_tile (0, 0)).map Tile.events) := by decide

/-- Witness for C2 (amended): on the concrete `tinyMaze` (whose tile has no
events), the add/remove pair restores the tile exactly. -/
theorem C2_add_remove_restores_witness :
    ((tinyMaze.add_event_from_tile
        ⟨"Town:park:bench:chessboard", none, none, none⟩ (0, 0)).remove_event_from_tile
        ⟨"Town:park:bench:chessboard", none, none, none⟩ (0, 0)).access_tile (0, 0)
      = some tinyTile :=
  C2_add_remove_restores tinyMaze ⟨"Town:park:bench:chessboard", none, none, none⟩
    (0, 0) tinyTile (by decide) (by decide)

/-- A 1×2 maze with two distinguishable tiles, for exhibiting Python
negative-index wrapping in `access_tile`. -/
def twoRowMaze : Maze :=
  { maze_width := 1, maze_height := 2, sq_tile_size := 32,
    tiles := [[{ tinyTile with sector := "rowzero" }],
              [{ tinyTile with sector := "rowone" }]],
    address_tiles := emptyAddrIndex }

/-- C3 (evaluation at the failing input): `access_tile` with the negative
coordinate `(0, -1)` does not fail — Python list indexing wraps the `-1` to
the last row, returning the in-bounds tile at `(0, 1)`.  This contradicts
the claimed always-fail (OutOfBounds, never wrapped) behaviour for
negative coordinates. -/
theorem C3_negative_coordinate_wraps :
    twoRowMaze.access_tile (0, -1) = twoRowMaze.access_tile (0, 1) ∧
    twoRowMaze.access_tile (0, -1) ≠ none ∧
    twoRowMaze.access_tile (0, -1) = some { tinyTile with sector := "rowone" } := by
  refine ⟨rfl, ?_, rfl⟩
  decide

/-- The space character, the separator of the `"%A %B %d"` format. -/
def spaceChar : Char := Char.ofNat 32

/-- String concatenation concatenates the underlying character lists. -/
theorem string_data_append (a b : String) : (a ++ b).data = a.data ++ b.data := rfl

/-- Splitting a character list at a separator absent from both prefixes is
unambiguous. -/
theorem split_at_space : ∀ (l1 l2 r1 r2 : List Char), spaceChar ∉ l1 → spaceChar ∉ l2 →
    l1 ++ spaceChar :: r1 = l2 ++ spaceChar :: r2 → l1 = l2 ∧ r1 = r2 := by
  intro l1
  induction l1 with
  | nil =>
    intro l2 r1 r2 h1 h2 heq
    cases l2 with
    | nil => simpa using heq
    | cons c t =>
      exfalso
      simp only [List.nil_append, List.cons_append] at heq
      injection heq with hc hrest
      subst hc
      exact h2 (List.mem_cons_self _ _)
  | cons c t ih =>
    intro l2 r1 r2 h1 h2 heq
    cases l2 with
    | nil =>
      exfalso
      simp only [List.nil_append, List.cons_append] at heq
      injection heq with hc hrest
      subst hc
      exact h1 (List.mem_cons_self _ _)
    | cons c2 t2 =>
      simp only [List.cons_append] at heq
      injection heq with hc hrest
      have ht1 : spaceChar ∉ t := fun hm => h1 (List.mem_cons_of_mem _ hm)
      have ht2 : spaceChar ∉ t2 := fun hm => h2 (List.mem_cons_of_mem _ hm)
      obtain ⟨he1, he2⟩ := ih t2 r1 r2 ht1 ht2 hrest
      exact ⟨by rw [hc, he1], he2⟩

/-- No weekday name contains a space. -/
theorem weekdayNames_no_space : ∀ w, w < 7 →
    spaceChar ∉ (weekdayNames.getD w "").data := by decide

/-- No month name contains a space. -/
theorem monthNames_no_space : ∀ i, i < 12 →
    spaceChar ∉ (monthNames.getD i "").data := by decide

/-- The seven weekday names are pairwise distinct. -/
theorem weekdayNames_data_inj : ∀ w1, w1 < 7 → ∀ w2, w2 < 7 →
    (weekdayNames.getD w1 "").data = (weekdayNames.getD w2 "").data → w1 = w2 := by
  decide

/-- The twelve month names are pairwise distinct. -/
theorem monthNames_data_inj : ∀ i1, i1 < 12 → ∀ i2, i2 < 12 →
    (monthNames.getD i1 "").data = (monthNames.getD i2 "").data → i1 = i2 := by
  decide

/-- Zero-padded two-digit rendering is injective on days below 32. -/
theorem dayFmt_data_inj : ∀ d1, d1 < 32 → ∀ d2, d2 < 32 →
    (if d1 < 10 then "0" ++ toString d1 else toString d1).data =
      (if d2 < 10 then "0" ++ toString d2 else toString d2).data → d1 = d2 := by
  decide

/-- The weekday code is always below 7. -/
theorem dayOfWeek_lt (y m d : Nat) : dayOfWeek y m d < 7 := by
  unfold dayOfWeek
  exact Nat.mod_lt _ (by omega)

/-- The character-list decomposition of the `"%A %B %d"` rendering. -/
theorem strftime_data (t : Datetime) :
    (strftimeAMBd t).data = (fmtWeekday t).data ++ spaceChar ::
      ((fmtMonth t).data ++ spaceChar :: (fmtDay2 t).data) := by
  show ((((fmtWeekday t ++ " ") ++ fmtMonth t) ++ " ") ++ fmtDay2 t).data = _
  simp only [string_data_append, List.append_assoc]
  rfl

/-- For calendar-valid dates, the `"%A %B %d"` renderings are equal exactly
when the (weekday, month, day-of-month) triples are equal — the year enters
only through the weekday. -/
theorem strftime_eq_iff (p c : Datetime) (hp : p.Valid) (hc : c.Valid) :
    strftimeAMBd p = strftimeAMBd c ↔
      (dayOfWeek p.year p.month p.day = dayOfWeek c.year c.month c.day ∧
       p.month = c.month ∧ p.day = c.day) := by
  obtain ⟨hpm1, hpm2, hpd1, hpd2⟩ := hp
  obtain ⟨hcm1, hcm2, hcd1, hcd2⟩ := hc
  constructor
  · intro h
    have hdata : (strftimeAMBd p).data = (strftimeAMBd c).data := by rw [h]
    rw [strftime_data, strftime_data] at hdata
    obtain ⟨h1, hrest⟩ := split_at_space _ _ _ _
      (weekdayNames_no_space _ (dayOfWeek_lt p.year p.month p.day))
      (weekdayNames_no_space _ (dayOfWeek_lt c.year c.month c.day)) hdata
    obtain ⟨h2, h3⟩ := split_at_space _ _ _ _
      (monthNames_no_space _ (by omega)) (monthNames_no_space _ (by omega)) hrest
    refine ⟨?_, ?_, ?_⟩
    · exact weekdayNames_data_inj _ (dayOfWeek_lt p.year p.month p.day) _
        (dayOfWeek_lt c.year c.month c.day) h1
    · have := monthNames_data_inj (p.month - 1) (by omega) (c.month - 1) (by omega) h2
      omega
    · exact dayFmt_data_inj p.day (by omega) c.day (by omega) h3
  · rintro ⟨h1, h2, h3⟩
    unfold strftimeAMBd fmtWeekday fmtMonth fmtDay2
    rw [h1, h2, h3]

/-- C4 (amended): the first tick (no stored time) gets `FirstDay`, and the
new time is stored unconditionally; but the day comparison is by the
year-less `"%A %B %d"` rendering, so: `NoSignal` holds iff the
(weekday, month, day-of-month) triples coincide, `NewDay` iff they differ —
and only for two datetimes in the same calendar year does this reduce to
the claimed "calendar day differs ⇒ NewDay".  Across years, distinct
calendar days sharing weekday, month and day-of-month yield `NoSignal`
(see the counterexample). -/
theorem C4_day_flag_characterisation (p c : Datetime) (hp : p.Valid) (hc : c.Valid) :
    (dayFlag none c = DayFlag.firstDay) ∧
    (dayFlag (some p) c = DayFlag.noSignal ↔
      (dayOfWeek p.year p.month p.day = dayOfWeek c.year c.month c.day ∧
       p.month = c.month ∧ p.day = c.day)) ∧
    (dayFlag (some p) c = DayFlag.newDay ↔
      ¬ (dayOfWeek p.year p.month p.day = dayOfWeek c.year c.month c.day ∧
         p.month = c.month ∧ p.day = c.day)) ∧
    (p.year = c.year →
      (dayFlag (some p) c = DayFlag.newDay ↔ ¬ (p.month = c.month ∧ p.day = c.day))) ∧
    (∀ {Mz Ps Pv Rt Pl Ac Er : Type} (cb : Collab Mz Ps Pv Rt Pl Ac Er)
        (s : Scratch) (mz : Mz) (ps : Ps) (tile : Int × Int),
      (Persona.move cb s mz ps tile c).1.curr_time = some c) := by
  have hiff := strftime_eq_iff p c hp hc
  have key1 : dayFlag (some p) c = DayFlag.noSignal ↔
      strftimeAMBd p = strftimeAMBd c := by
    unfold dayFlag
    by_cases hEq : strftimeAMBd p = strftimeAMBd c <;> simp [hEq]
  have key2 : dayFlag (some p) c = DayFlag.newDay ↔
      ¬ strftimeAMBd p = strftimeAMBd c := by
    unfold dayFlag
    by_cases hEq : strftimeAMBd p = strftimeAMBd c <;> simp [hEq]
  refine ⟨rfl, key1.trans hiff, key2.trans (not_congr hiff), ?_, ?_⟩
  · intro hy
    refine (key2.trans (not_congr hiff)).trans (not_congr ?_)
    constructor
    · rintro ⟨-, h2, h3⟩; exact ⟨h2, h3⟩
    · rintro ⟨h2, h3⟩
      exact ⟨by rw [hy, h2, h3], h2, h3⟩
  · intro Mz Ps Pv Rt Pl Ac Er cb s mz ps tile
    rw [move_scratch_eq]

/-- Witness for C4: concrete same-year dates.  May 4 vs May 5, 2023 gives
`NewDay`; the identical date gives `NoSignal`; a first tick gives
`FirstDay`. -/
theorem C4_day_flag_characterisation_witness :
    dayFlag (some ⟨2023, 5, 4, 0⟩) ⟨2023, 5, 5, 0⟩ = DayFlag.newDay ∧
    dayFlag (some ⟨2023, 5, 5, 3⟩) ⟨2023, 5, 5, 9⟩ = DayFlag.noSignal ∧
    dayFlag none ⟨2023, 5, 5, 0⟩ = DayFlag.firstDay := by
  have h1 := C4_day_flag_characterisation ⟨2023, 5, 4, 0⟩ ⟨2023, 5, 5, 0⟩
    (by decide) (by decide)
  have h2 := C4_day_flag_characterisation ⟨2023, 5, 5, 3⟩ ⟨2023, 5, 5, 9⟩
    (by decide) (by decide)
  exact ⟨(h1.2.2.2.1 rfl).mpr (by decide), h2.2.1.mpr (by decide), h2.1⟩

/-- Counterexample to C4 as stated: 2021-03-01 and 2027-03-01 are distinct
calendar days (different years), yet both render as `"Monday March 01"`
under `"%A %B %d"`, so the flag is `NoSignal`, not the claimed `NewDay`. -/
theorem C4_day_flag_counterexample :
    dayFlag (some ⟨2021, 3, 1, 0⟩) ⟨2027, 3, 1, 0⟩ = DayFlag.noSignal ∧
    (⟨2021, 3, 1, 0⟩ : Datetime).year ≠ (⟨2027, 3, 1, 0⟩ : Datetime).year := by
  exact ⟨by decide, by decide⟩

/-!
## Construction lemmas (for the reverse-index and load-failure claims)
-/

/-- `Except.ok` bind reduction. -/
theorem except_bind_ok {ε α β : Type} (x : α) (f : α → Except ε β) :
    ((Except.ok x : Except ε α) >>= f) = f x := rfl

/-- `Except.error` bind reduction. -/
theorem except_bind_error {ε α β : Type} (e : ε) (f : α → Except ε β) :
    ((Except.error e : Except ε α) >>= f) = Except.error e := rfl

/-- `pure` bind reduction for `Except`. -/
theorem except_bind_pure {ε α β : Type} (x : α) (f : α → Except ε β) :
    ((pure x : Except ε α) >>= f) = f x := rfl

/-- A successful `mapM` over `Except` has the input's length and succeeds
pointwise. -/
theorem mapM_ok_spec {α β : Type} (f : α → Except String β) :
    ∀ (xs : List α) (ys : List β), xs.mapM f = Except.ok ys →
      ys.length = xs.length ∧
      ∀ i x, xs.get? i = some x → ∃ y, ys.get? i = some y ∧ f x = Except.ok y := by
  intro xs
  induction xs with
  | nil =>
    intro ys h
    rw [List.mapM_nil] at h
    injection h with h
    subst h
    exact ⟨rfl, fun i x hx => by simp at hx⟩
  | cons a t ih =>
    intro ys h
    rw [List.mapM_cons] at h
    cases hfa : f a with
    | error e => rw [hfa, except_bind_error] at h; exact absurd h (by simp)
    | ok b =>
      rw [hfa, except_bind_ok] at h
      cases hmt : t.mapM f with
      | error e => rw [hmt, except_bind_error] at h; exact absurd h (by simp)
      | ok bs =>
        rw [hmt, except_bind_ok] at h
        injection h with h
        subst h
        obtain ⟨hlen, hget⟩ := ih bs hmt
        refine ⟨by simp [hlen], fun i x hx => ?_⟩
        cases i with
        | zero =>
          simp only [List.get?] at hx
          injection hx with hx
          subst hx
          exact ⟨b, rfl, hfa⟩
        | succ n =>
          simp only [List.get?] at hx ⊢
          exact hget n x hx

/-- Membership of a coordinate in the index is preserved by
`addrInsert`. -/
theorem addrInsert_mem_mono (d : AddrIndex) (key : String) (co : Int × Int)
    (k : String) (c : Int × Int) (h : c ∈ d k) : c ∈ addrInsert d key co k := by
  unfold addrInsert
  split
  · exact Finset.mem_insert_of_mem h
  · exact h

/-- Membership is preserved by a conditional `addrInsert` step. -/
theorem addrInsert_step_mem {cond : Prop} [Decidable cond] (d : AddrIndex)
    (key : String) (co : Int × Int) (k : String) (c : Int × Int) (h : c ∈ d k) :
    c ∈ (if cond then addrInsert d key co else d) k := by
  split
  · exact addrInsert_mem_mono d key co k c h
  · exact h

/-- Membership in the index is preserved by indexing a further tile. -/
theorem indexTile_mem_mono (d : AddrIndex) (tile : Tile) (x y : Nat)
    (k : String) (c : Int × Int) (h : c ∈ d k) :
    c ∈ indexTileAddresses d tile x y k := by
  unfold indexTileAddresses
  exact addrInsert_step_mem _ _ _ _ _ (addrInsert_step_mem _ _ _ _ _
    (addrInsert_step_mem _ _ _ _ _ (addrInsert_step_mem _ _ _ _ _ h)))

/-- Indexing a tile with a non-empty arena registers the tile's coordinate
under its arena address. -/
theorem indexTile_arena_mem (d : AddrIndex) (tile : Tile) (x y : Nat)
    (h : tile.arena ≠ "") :
    ((x : Int), (y : Int)) ∈ indexTileAddresses d tile x y
      (tile.world ++ ":" ++ tile.sector ++ ":" ++ tile.arena) := by
  unfold indexTileAddresses
  apply addrInsert_step_mem
  apply addrInsert_step_mem
  rw [if_pos h]
  unfold addrInsert
  rw [if_pos rfl]
  exact Finset.mem_insert_self _ _

/-- The per-row index fold of `buildMaze`: a successful fold only grows the
index, and registers every processed tile with a non-empty arena under its
arena address. -/
theorem innerFold_spec (cfg : MazeConfig) (y : Nat) :
    ∀ (xs : List Nat) (d0 d : AddrIndex),
      xs.foldlM (fun d2 x => do
        let tile ← buildTile cfg x y
        pure (indexTileAddresses d2 tile x y)) d0 = Except.ok d →
      (∀ k c, c ∈ d0 k → c ∈ d k) ∧
      (∀ x ∈ xs, ∀ tile, buildTile cfg x y = Except.ok tile → tile.arena ≠ "" →
        ((x : Int), (y : Int)) ∈ d (tile.world ++ ":" ++ tile.sector ++ ":" ++ tile.arena)) := by
  intro xs
  induction xs with
  | nil =>
    intro d0 d h
    rw [List.foldlM_nil] at h
    injection h with h
    subst h
    exact ⟨fun k c hc => hc, fun x hx => by simp at hx⟩
  | cons a t ih =>
    intro d0 d h
    rw [List.foldlM_cons] at h
    cases hbt : buildTile cfg a y with
    | error e =>
      rw [hbt, except_bind_error, except_bind_error] at h
      exact absurd h (by simp)
    | ok tile0 =>
      rw [hbt, except_bind_ok, except_bind_pure] at h
      obtain ⟨mono, mem⟩ := ih (indexTileAddresses d0 tile0 a y) d h
      refine ⟨fun k c hc => mono k c (indexTile_mem_mono d0 tile0 a y k c hc),
        fun x hx tile hbt' ha => ?_⟩
      rcases List.mem_cons.mp hx with heq | hmem
      · rw [heq] at hbt'
        rw [hbt] at hbt'
        injection hbt' with he
        rw [heq, ← he]
        exact mono _ _ (indexTile_arena_mem d0 tile0 a y (by rw [he]; exact ha))
      · exact mem x hmem tile hbt' ha

/-- The full index fold of `buildMaze` over all rows: same growth and
registration properties across every processed cell. -/
theorem outerFold_spec (cfg : MazeConfig) :
    ∀ (ys : List Nat) (d0 d : AddrIndex),
      ys.foldlM (fun dd y => (List.range cfg.maze_width).foldlM (fun d2 x => do
        let tile ← buildTile cfg x y
        pure (indexTileAddresses d2 tile x y)) dd) d0 = Except.ok d →
      (∀ k c, c ∈ d0 k → c ∈ d k) ∧
      (∀ y ∈ ys, ∀ x ∈ List.range cfg.maze_width, ∀ tile,
        buildTile cfg x y = Except.ok tile → tile.arena ≠ "" →
        ((x : Int), (y : Int)) ∈ d (tile.world ++ ":" ++ tile.sector ++ ":" ++ tile.arena)) := by
  intro ys
  induction ys with
  | nil =>
    intro d0 d h
    rw [List.foldlM_nil] at h
    injection h with h
    subst h
    exact ⟨fun k c hc => hc, fun y hy => by simp at hy⟩
  | cons b t ih =>
    intro d0 d h
    rw [List.foldlM_cons] at h
    cases hin : (List.range cfg.maze_width).foldlM (fun d2 x => do
        let tile ← buildTile cfg x b
        pure (indexTileAddresses d2 tile x b)) d0 with
    | error e =>
      rw [hin, except_bind_error] at h
      exact absurd h (by simp)
    | ok d1 =>
      rw [hin, except_bind_ok] at h
      obtain ⟨mono1, mem1⟩ := innerFold_spec cfg b (List.range cfg.maze_width) d0 d1 hin
      obtain ⟨mono, mem⟩ := ih d1 d h
      refine ⟨fun k c hc => mono k c (mono1 k c hc), fun y hy x hx tile hbt ha => ?_⟩
      rcases List.mem_cons.mp hy with heq | hmem
      · subst heq
        exact mono _ _ (mem1 x hx tile hbt ha)
      · exact mem y hmem x hx tile hbt ha

/-- Destructuring a successful `buildMaze`: the tile grid comes from the
cell `mapM`, the reverse index from the index fold, and the dimensions from
the configuration. -/
theorem buildMaze_ok_parts (cfg : MazeConfig) (m : Maze)
    (h : buildMaze cfg = Except.ok m) :
    ∃ tiles addr,
      (List.range cfg.maze_height).mapM (fun y =>
        (List.range cfg.maze_width).mapM (fun x => buildTile cfg x y)) =
          Except.ok tiles ∧
      (List.range cfg.maze_height).foldlM (fun d y =>
        (List.range cfg.maze_width).foldlM (fun d2 x => do
          let tile ← buildTile cfg x y
          pure (indexTileAddresses d2 tile x y)) d) emptyAddrIndex =
          Except.ok addr ∧
      m = { maze_width := cfg.maze_width, maze_height := cfg.maze_height,
            sq_tile_size := cfg.sq_tile_size, tiles := tiles,
            address_tiles := addr } := by
  unfold buildMaze at h
  cases h1 : (List.range cfg.maze_height).mapM (fun y =>
      (List.range cfg.maze_width).mapM (fun x => buildTile cfg x y)) with
  | error e =>
    rw [h1, except_bind_error] at h
    exact absurd h (by simp)
  | ok tiles =>
    rw [h1, except_bind_ok] at h
    cases h2 : (List.range cfg.maze_height).foldlM (fun d y =>
        (List.range cfg.maze_width).foldlM (fun d2 x => do
          let tile ← buildTile cfg x y
          pure (indexTileAddresses d2 tile x y)) d) emptyAddrIndex with
    | error e =>
      rw [h2, except_bind_error] at h
      exact absurd h (by simp)
    | ok addr =>
      rw [h2, except_bind_ok] at h
      injection h with h
      exact ⟨tiles, addr, rfl, rfl, h.symm⟩

/-- C7: after a successful construction, every in-bounds tile with a
non-empty arena has its coordinate registered in the reverse index under
its arena address (which is exactly what `get_tile_path _ "arena"`
returns); and none of the four event-mutation operations touches the
reverse index. -/
theorem C7_reverse_index_arena (cfg : MazeConfig) (m : Maze)
    (hbuild : buildMaze cfg = Except.ok m) (x y : Int) (tl : Tile)
    (hx0 : 0 ≤ x) (hx : x < (m.maze_width : Int))
    (hy0 : 0 ≤ y) (hy : y < (m.maze_height : Int))
    (hacc : m.access_tile (x, y) = some tl) (harena : tl.arena ≠ "") :
    m.get_tile_path (x, y) "arena" =
      some (tl.world ++ ":" ++ tl.sector ++ ":" ++ tl.arena) ∧
    (x, y) ∈ m.address_tiles (tl.world ++ ":" ++ tl.sector ++ ":" ++ tl.arena) ∧
    (∀ e t', (m.add_event_from_tile e t').address_tiles = m.address_tiles) ∧
    (∀ e t', (m.remove_event_from_tile e t').address_tiles = m.address_tiles) ∧
    (∀ e t', (m.turn_event_from_tile_idle e t').address_tiles = m.address_tiles) ∧
    (∀ su t', (m.remove_subject_events_from_tile su t').address_tiles
      = m.address_tiles) := by
  obtain ⟨tiles, addr, h1, h2, hm⟩ := buildMaze_ok_parts cfg m hbuild
  have hpath : m.get_tile_path (x, y) "arena" =
      some (tl.world ++ ":" ++ tl.sector ++ ":" ++ tl.arena) := by
    unfold Maze.get_tile_path
    rw [hacc]
    rfl
  -- Recover the originating buildTile call for the accessed tile.
  have hwidth : (m.maze_width : Nat) = cfg.maze_width := by rw [hm]
  have hheight : (m.maze_height : Nat) = cfg.maze_height := by rw [hm]
  have htiles : m.tiles = tiles := by rw [hm]
  have haddr : m.address_tiles = addr := by rw [hm]
  obtain ⟨hlenO, hgetO⟩ := mapM_ok_spec _ (List.range cfg.maze_height) tiles h1
  have hyb : y.toNat < cfg.maze_height := by omega
  obtain ⟨row, hrow, hrowM⟩ := hgetO y.toNat y.toNat (List.get?_range hyb)
  obtain ⟨hlenI, hgetI⟩ := mapM_ok_spec _ (List.range cfg.maze_width) row hrowM
  have hxb : x.toNat < cfg.maze_width := by omega
  obtain ⟨tile, htile, htileB⟩ := hgetI x.toNat x.toNat (List.get?_range hxb)
  -- access_tile resolves to exactly that tile.
  have haccess : m.access_tile (x, y) = some tile := by
    unfold Maze.access_tile
    rw [htiles]
    show (pyIdx tiles y).bind (fun r => pyIdx r x) = some tile
    rw [pyIdx_of_nonneg tiles y hy0, hrow]
    show pyIdx row x = some tile
    rw [pyIdx_of_nonneg row x hx0, htile]
  have htl : tile = tl := by
    rw [haccess] at hacc
    injection hacc
  -- The index fold registered (x, y) under the arena key.
  obtain ⟨-, hmem⟩ := outerFold_spec cfg (List.range cfg.maze_height)
    emptyAddrIndex addr h2
  have hreg := hmem y.toNat (List.mem_range.mpr hyb) x.toNat
    (List.mem_range.mpr hxb) tile htileB (by rw [htl]; exact harena)
  have hco : ((x.toNat : Int), (y.toNat : Int)) = (x, y) := by
    have e1 : (x.toNat : Int) = x := Int.toNat_of_nonneg hx0
    have e2 : (y.toNat : Int) = y := Int.toNat_of_nonneg hy0
    rw [e1, e2]
  rw [hco, htl] at hreg
  refine ⟨hpath, ?_, fun e t' => rfl, fun e t' => rfl, fun e t' => rfl,
    fun su t' => rfl⟩
  rw [haddr]
  exact hreg

/-- A concrete 1×1 configuration: code "1" maps to sector "park", arena
"bench", game object "chessboard". -/
def demoCfg : MazeConfig :=
  { maze_width := 1, maze_height := 1, sq_tile_size := 32,
    world_block := "Town",
    sector_blocks := fun c => if c = "1" then "park" else "",
    arena_blocks := fun c => if c = "1" then "bench" else "",
    object_blocks := fun c => if c = "1" then "chessboard" else "",
    spawn_blocks := fun _ => "",
    collision_raw := ["0"], sector_raw := ["1"], arena_raw := ["1"],
    object_raw := ["1"], spawn_raw := ["1"] }

/-- The maze `demoCfg` builds (total extraction; the fallback is never
reached because the build succeeds). -/
def demoMaze : Maze :=
  match buildMaze demoCfg with
  | Except.ok m => m
  | Except.error _ =>
    { maze_width := 0, maze_height := 0, sq_tile_size := 0, tiles := [],
      address_tiles := emptyAddrIndex }

/-- Building from `demoCfg` succeeds and yields `demoMaze`. -/
theorem buildMaze_demoCfg : buildMaze demoCfg = Except.ok demoMaze := rfl

/-- The tile `demoCfg` produces at `(0, 0)`. -/
def demoTile : Tile :=
  { world := "Town", sector := "park", arena := "bench",
    game_object := "chessboard", spawning_location := "", collision := false,
    events := {⟨"Town:park:bench:chessboard", none, none, none⟩} }

/-- Witness for C7: on the concretely built `demoMaze`, the tile at `(0,0)`
has arena "bench" and the reverse index holds `(0,0)` under
`"Town:park:bench"`, the string `get_tile_path` returns for the arena
level. -/
theorem C7_reverse_index_arena_witness :
    demoMaze.get_tile_path (0, 0) "arena" = some "Town:park:bench" ∧
    (0, 0) ∈ demoMaze.address_tiles "Town:park:bench" := by
  have hacc : demoMaze.access_tile (0, 0) = some demoTile := by decide
  have h := C7_reverse_index_arena demoCfg demoMaze buildMaze_demoCfg 0 0 demoTile
    (by decide) (by decide) (by decide) (by decide) hacc (by decide)
  exact ⟨h.1, h.2.1⟩

/-- A successful raw-layer access bounds the index. -/
theorem layerCell_ok_lt (xs : List String) (idx : Nat) (v : String)
    (h : layerCell xs idx = Except.ok v) : idx < xs.length := by
  unfold layerCell at h
  cases hg : xs.get? idx with
  | none => rw [hg] at h; exact absurd h (by simp)
  | some w =>
    obtain ⟨hlt, -⟩ := List.get?_eq_some.mp hg
    exact hlt

/-- If any of the five raw layers is too short for a cell's row-major
index, building that cell's tile fails (with Python's generic
`IndexError`, which does not name the layer). -/
theorem buildTile_error_of_short (cfg : MazeConfig) (x y : Nat)
    (h : cfg.sector_raw.length ≤ y * cfg.maze_width + x ∨
         cfg.arena_raw.length ≤ y * cfg.maze_width + x ∨
         cfg.object_raw.length ≤ y * cfg.maze_width + x ∨
         cfg.spawn_raw.length ≤ y * cfg.maze_width + x ∨
         cfg.collision_raw.length ≤ y * cfg.maze_width + x) :
    ∀ t, buildTile cfg x y ≠ Except.ok t := by
  intro t hok
  simp only [buildTile] at hok
  cases hg1 : layerCell cfg.sector_raw (y * cfg.maze_width + x) with
  | error e => rw [hg1, except_bind_error] at hok; exact absurd hok (by simp)
  | ok v1 =>
  rw [hg1, except_bind_ok] at hok
  cases hg2 : layerCell cfg.arena_raw (y * cfg.maze_width + x) with
  | error e => rw [hg2, except_bind_error] at hok; exact absurd hok (by simp)
  | ok v2 =>
  rw [hg2, except_bind_ok] at hok
  cases hg3 : layerCell cfg.object_raw (y * cfg.maze_width + x) with
  | error e => rw [hg3, except_bind_error] at hok; exact absurd hok (by simp)
  | ok v3 =>
  rw [hg3, except_bind_ok] at hok
  cases hg4 : layerCell cfg.spawn_raw (y * cfg.maze_width + x) with
  | error e => rw [hg4, except_bind_error] at hok; exact absurd hok (by simp)
  | ok v4 =>
  rw [hg4, except_bind_ok] at hok
  cases hg5 : layerCell cfg.collision_raw (y * cfg.maze_width + x) with
  | error e => rw [hg5, except_bind_error] at hok; exact absurd hok (by simp)
  | ok v5 =>
  have b1 := layerCell_ok_lt _ _ _ hg1
  have b2 := layerCell_ok_lt _ _ _ hg2
  have b3 := layerCell_ok_lt _ _ _ hg3
  have b4 := layerCell_ok_lt _ _ _ hg4
  have b5 := layerCell_ok_lt _ _ _ hg5
  rcases h with h | h | h | h | h <;> omega

/-- C8 (amended): loading cannot succeed when any of the five layers has
fewer than `width*height` cells — the first access past the short layer's
end fails the build (with a generic index error rather than a
layer-identifying ConfigError).  Layers with extra cells, by contrast, load
silently (see the counterexample). -/
theorem C8_short_layer_fails (cfg : MazeConfig)
    (h : cfg.sector_raw.length < cfg.maze_width * cfg.maze_height ∨
         cfg.arena_raw.length < cfg.maze_width * cfg.maze_height ∨
         cfg.object_raw.length < cfg.maze_width * cfg.maze_height ∨
         cfg.spawn_raw.length < cfg.maze_width * cfg.maze_height ∨
         cfg.collision_raw.length < cfg.maze_width * cfg.maze_height) :
    (buildMaze cfg).isOk = false := by
  cases hbm : buildMaze cfg with
  | error e => rfl
  | ok m =>
    exfalso
    obtain ⟨tiles, addr, h1, -, -⟩ := buildMaze_ok_parts cfg m hbm
    have hwh : 0 < cfg.maze_width * cfg.maze_height := by
      rcases h with h | h | h | h | h <;> omega
    have hw : 0 < cfg.maze_width := by
      rcases Nat.eq_zero_or_pos cfg.maze_width with h0 | h0
      · rw [h0, Nat.zero_mul] at hwh; omega
      · exact h0
    have hh : 0 < cfg.maze_height := by
      rcases Nat.eq_zero_or_pos cfg.maze_height with h0 | h0
      · rw [h0, Nat.mul_zero] at hwh; omega
      · exact h0
    have hy0 : cfg.maze_height - 1 < cfg.maze_height := by omega
    have hx0 : cfg.maze_width - 1 < cfg.maze_width := by omega
    obtain ⟨hlenO, hgetO⟩ := mapM_ok_spec _ _ tiles h1
    obtain ⟨row, -, hrowM⟩ := hgetO (cfg.maze_height - 1) (cfg.maze_height - 1)
      (List.get?_range hy0)
    obtain ⟨hlenI, hgetI⟩ := mapM_ok_spec _ _ row hrowM
    obtain ⟨tile, -, htileB⟩ := hgetI (cfg.maze_width - 1) (cfg.maze_width - 1)
      (List.get?_range hx0)
    obtain ⟨w', hw'⟩ : ∃ w', cfg.maze_width = w' + 1 := ⟨cfg.maze_width - 1, by omega⟩
    obtain ⟨h', hh'⟩ : ∃ h', cfg.maze_height = h' + 1 := ⟨cfg.maze_height - 1, by omega⟩
    have hidx : (cfg.maze_height - 1) * cfg.maze_width + (cfg.maze_width - 1) + 1
        = cfg.maze_width * cfg.maze_height := by
      rw [hw', hh']
      simp only [Nat.add_sub_cancel]
      ring
    refine buildTile_error_of_short cfg (cfg.maze_width - 1) (cfg.maze_height - 1)
      ?_ tile htileB
    rcases h with h | h | h | h | h
    · exact Or.inl (by omega)
    · exact Or.inr (Or.inl (by omega))
    · exact Or.inr (Or.inr (Or.inl (by omega)))
    · exact Or.inr (Or.inr (Or.inr (Or.inl (by omega))))
    · exact Or.inr (Or.inr (Or.inr (Or.inr (by omega))))

/-- A 1×1 configuration whose five layers all have two cells instead of
one. -/
def overlongCfg : MazeConfig :=
  { maze_width := 1, maze_height := 1, sq_tile_size := 32,
    world_block := "Town",
    sector_blocks := fun _ => "", arena_blocks := fun _ => "",
    object_blocks := fun _ => "", spawn_blocks := fun _ => "",
    collision_raw := ["0", "0"], sector_raw := ["1", "1"],
    arena_raw := ["1", "1"], object_raw := ["1", "1"],
    spawn_raw := ["1", "1"] }

/-- Counterexample to C8 as stated: every layer of `overlongCfg` has 2 ≠ 1
= width*height cells, yet the load silently succeeds (the extra cells are
ignored) — no ConfigError is raised on this size mismatch. -/
theorem C8_overlong_layer_counterexample :
    (buildMaze overlongCfg).isOk = true ∧
    overlongCfg.sector_raw.length ≠
      overlongCfg.maze_width * overlongCfg.maze_height := by
  exact ⟨rfl, by decide⟩

/-- A 1×1 configuration whose sector layer is empty (too short). -/
def shortCfg : MazeConfig :=
  { maze_width := 1, maze_height := 1, sq_tile_size := 32,
    world_block := "Town",
    sector_blocks := fun _ => "", arena_blocks := fun _ => "",
    object_blocks := fun _ => "", spawn_blocks := fun _ => "",
    collision_raw := ["0"], sector_raw := [],
    arena_raw := ["1"], object_raw := ["1"], spawn_raw := ["1"] }

/-- Witness for C8 (amended): the concrete too-short sector layer makes the
build fail. -/
theorem C8_short_layer_fails_witness : (buildMaze shortCfg).isOk = false :=
  C8_short_layer_fails shortCfg (Or.inl (by decide))
